import Mathlib

/-!
# Verification of the upstream node-state reconciler
  (pkg/controllermanager/node_processor.go)

Shallow embedding of the reconciliation core: report decoding, the
edge-version gate, the optimistic-concurrency upsert engine, the
best-effort delete handler, and the dispatcher.

The node registry (a Kubernetes-style API server) is an external
collaborator; it is embedded here as an explicit state (`Store`) together
with the four operations the reconciler consumes (`Get`, `Create`,
`Update`, `Delete`) and their error outcomes (not-found, conflict).
Concurrent writers are embedded as an explicit list of interference
events consumed between the read and the write of each upsert attempt;
every reconciler operation also emits a trace of the registry calls it
performed, so that ordering and frame properties can be stated.
-/

/-- Label maps (`map[string]string` in Go), as association lists. -/
abbrev Labels := List (String × String)

/-- Go map indexing `m[k]`: the zero value `""` when the key is absent. -/
def getLabel (ls : Labels) (k : String) : String :=
  match ls.find? (fun p => p.1 == k) with
  | some p => p.2
  | none => ""

/-- The fields of `corev1.Node` the reconciler reads or writes: the name,
the label set, and the registry-owned concurrency token
(`ObjectMeta.ResourceVersion`, embedded as a `Nat`). -/
structure Node where
  name : String
  labels : Labels
  resourceVersion : Nat
deriving Repr, DecidableEq

/-- Modelled from the spec: `reporter.EdgeVersionLabel`, the reserved label
key that carries the edge-version counter as a decimal string (the
`reporter` package is an external collaborator of this file). -/
def EdgeVersionLabel : String := "edge-version"

/-- The registry state: entries keyed by node name, plus the counter from
which the registry assigns a fresh concurrency token on every successful
write. -/
structure Store where
  nodes : List (String × Node)
  nextRV : Nat
deriving Repr, DecidableEq

/-- Errors surfaced by registry calls (`k8s.io/apimachinery` errors as the
reconciler distinguishes them: `IsNotFound`, `IsConflict`, anything else). -/
inductive KErr where
  | notFound
  | conflict
  | other (msg : String)
deriving Repr, DecidableEq

/-- Errors returned by the reconciler's own functions. -/
inductive Err where
  | decode (msg : String)
  | identity (msg : String)
  | store (e : KErr)
  | emptyVersion
  | atoi (s : String)
  | staleVersion (cur stored : String)
  | fuel
deriving Repr, DecidableEq

/-- Registry `Get(name)`: the stored node, or not-found. -/
def storeGet (s : Store) (name : String) : Except KErr Node :=
  match s.nodes.find? (fun p => p.1 == name) with
  | some p => .ok p.2
  | none => .error .notFound

/-- Registry `Create(node)`: inserts the node with a fresh concurrency
token; fails if an entry with that name already exists. -/
def storeCreate (s : Store) (n : Node) : Except KErr (Node × Store) :=
  match s.nodes.find? (fun p => p.1 == n.name) with
  | some _ => .error (.other "already exists")
  | none =>
    let n' : Node := { n with resourceVersion := s.nextRV }
    .ok (n', { nodes := (n.name, n') :: s.nodes, nextRV := s.nextRV + 1 })

/-- Registry `Update(node)`: optimistic concurrency — the write succeeds
only if the submitted concurrency token matches the stored one, and the
registry then assigns a fresh token; a stale token yields a conflict. -/
def storeUpdate (s : Store) (n : Node) : Except KErr (Node × Store) :=
  match s.nodes.find? (fun p => p.1 == n.name) with
  | none => .error .notFound
  | some p =>
    if n.resourceVersion = p.2.resourceVersion then
      let n' : Node := { n with resourceVersion := s.nextRV }
      .ok (n', { nodes := s.nodes.map (fun q => if q.1 == n.name then (n.name, n') else q),
                 nextRV := s.nextRV + 1 })
    else .error .conflict

/-- Registry `Delete(name)`: removes the entry, or not-found if absent. -/
def storeDelete (s : Store) (name : String) : Except KErr Store :=
  match s.nodes.find? (fun p => p.1 == name) with
  | none => .error .notFound
  | some _ => .ok { s with nodes := s.nodes.filter (fun p => p.1 != name) }

deriving instance DecidableEq for Except

/-- One registry call made by the reconciler, with its outcome. -/
inductive RegCall where
  | getC (name : String) (res : Except KErr Node)
  | createC (n : Node) (res : Except KErr Node)
  | updateC (n : Node) (res : Except KErr Node)
  | deleteC (name : String) (res : Except KErr Unit)
deriving Repr, DecidableEq

/-- An action of a concurrent writer on the registry, interleaved between
the reconciler's read and its write: an unconditional upsert of some node
(the other writer completed its own read-check-write cycle) or a delete. -/
inductive Intervene where
  | put (n : Node)
  | del (name : String)
deriving Repr, DecidableEq

/-- Apply one concurrent-writer action to the registry. A `put` stores the
node with a fresh registry-assigned concurrency token. -/
def applyIntervene (s : Store) (iv : Intervene) : Store :=
  match iv with
  | .put n =>
    let n' : Node := { n with resourceVersion := s.nextRV }
    if (s.nodes.find? (fun p => p.1 == n.name)).isSome then
      { nodes := s.nodes.map (fun q => if q.1 == n.name then (n.name, n') else q),
        nextRV := s.nextRV + 1 }
    else
      { nodes := (n.name, n') :: s.nodes, nextRV := s.nextRV + 1 }
  | .del name =>
    { s with nodes := s.nodes.filter (fun p => p.1 != name) }

/-- Result of one reconciler operation: the returned value, the registry
state afterwards, the registry calls made, and the concurrent-writer
events not yet consumed. -/
structure OpOut where
  res : Except Err Unit
  s : Store
  tr : List RegCall
  iv : List Intervene
deriving Repr, DecidableEq

/-- `'0' ≤ c ≤ '9'`. -/
def isDigitCh (c : Char) : Bool := '0' ≤ c && c ≤ '9'

/-- Value of a decimal digit string. -/
def digitsVal (cs : List Char) : Nat :=
  cs.foldl (fun a c => a * 10 + (c.toNat - '0'.toNat)) 0

/-- The signed value of a parsed digit string. -/
def atoiVal (neg : Bool) (digits : List Char) : Int :=
  if neg then -(digitsVal digits : Int) else (digitsVal digits : Int)

/-- The digits part of `strconv.Atoi`: at least one decimal digit, whose
value must fit a 64-bit `int`. -/
def goAtoiCore (str : String) (neg : Bool) (digits : List Char) : Except Err Int :=
  if digits = [] ∨ ¬ digits.all isDigitCh then .error (.atoi str)
  else if atoiVal neg digits < -(2 ^ 63) ∨ 2 ^ 63 - 1 < atoiVal neg digits then .error (.atoi str)
  else .ok (atoiVal neg digits)

/-- `strconv.Atoi` on a 64-bit platform: an optional sign followed by at
least one decimal digit, rejecting the empty string, any other character,
and values outside the range of a 64-bit `int`. -/
def goAtoi (str : String) : Except Err Int :=
  match str.data with
  | [] => .error (.atoi str)
  | c :: rest =>
    if c = '-' then goAtoiCore str true rest
    else if c = '+' then goAtoiCore str false rest
    else goAtoiCore str false str.data

/-- `checkNodeEdgeVersion`: errors when either edge-version label is the
empty string (also what a missing label reads as) or fails to parse;
otherwise accepts exactly when the incoming version exceeds the stored
one. -/
def checkNodeEdgeVersion (node storedNode : Node) : Except Err Unit :=
  if getLabel node.labels EdgeVersionLabel == "" ∨ getLabel storedNode.labels EdgeVersionLabel == "" then
    .error .emptyVersion
  else
    match goAtoi (getLabel node.labels EdgeVersionLabel) with
    | .error e => .error e
    | .ok nodeVersion =>
      match goAtoi (getLabel storedNode.labels EdgeVersionLabel) with
      | .error e => .error e
      | .ok storedNodeVersion =>
        if nodeVersion ≤ storedNodeVersion then
          .error (.staleVersion (getLabel node.labels EdgeVersionLabel)
                                (getLabel storedNode.labels EdgeVersionLabel))
        else .ok ()

/-- `GetNode`: retrieve the requested node based on name. -/
def GetNode (s : Store) (node : Node) : Except KErr Node :=
  storeGet s node.name

/-- `CreateNode`: create the given node, surfacing any registry error. -/
def CreateNode (node : Node) (s : Store) (iv : List Intervene) : OpOut :=
  match storeCreate s node with
  | .ok (n2, s2) => ⟨.ok (), s2, [.createC node (.ok n2)], iv⟩
  | .error e => ⟨.error (.store e), s, [.createC node (.error e)], iv⟩

/-- One iteration of `UpdateNode`: read the stored node, run the version
gate, copy the freshly read concurrency token onto the outgoing node, let
any pending concurrent writer act, then submit the write; a conflict
restarts the whole sequence (`recur`). -/
def updateNodeStep (recur : Node → Store → List Intervene → OpOut)
    (node : Node) (s : Store) (iv : List Intervene) : OpOut :=
  match GetNode s node with
  | .error e => ⟨.error (.store e), s, [.getC node.name (.error e)], iv⟩
  | .ok storedNode =>
    match checkNodeEdgeVersion node storedNode with
    | .error e => ⟨.error e, s, [.getC node.name (.ok storedNode)], iv⟩
    | .ok _ =>
      let node' : Node := { node with resourceVersion := storedNode.resourceVersion }
      let s1 := match iv with
        | [] => s
        | w :: _ => applyIntervene s w
      let iv1 := iv.tail
      match storeUpdate s1 node' with
      | .ok (n2, s2) =>
        ⟨.ok (), s2, [.getC node.name (.ok storedNode), .updateC node' (.ok n2)], iv1⟩
      | .error .conflict =>
        let o := recur node' s1 iv1
        ⟨o.res, o.s, .getC node.name (.ok storedNode) :: .updateC node' (.error .conflict) :: o.tr, o.iv⟩
      | .error e =>
        ⟨.error (.store e), s1, [.getC node.name (.ok storedNode), .updateC node' (.error e)], iv1⟩

/-- `UpdateNode`, with an explicit fuel bounding the conflict-retry
recursion (the Go function recurses on itself; `UpdateNode` below shows the
fuel is an artifact: `iv.length + 1` always suffices). -/
def UpdateNodeFuel : Nat → Node → Store → List Intervene → OpOut
  | 0, _, s, iv => ⟨.error .fuel, s, [], iv⟩
  | fuel + 1, node, s, iv => updateNodeStep (UpdateNodeFuel fuel) node s iv

/-- `UpdateNode`: the conflict-retry loop, run with enough fuel for the
finitely many concurrent-writer events (each retry is caused by one). -/
def UpdateNode (node : Node) (s : Store) (iv : List Intervene) : OpOut :=
  UpdateNodeFuel (iv.length + 1) node s iv

/-- `CreateOrUpdateNode`: read; on not-found create the node as given,
on any other read error surface it, otherwise run the gated update. -/
def CreateOrUpdateNode (node : Node) (s : Store) (iv : List Intervene) : OpOut :=
  match GetNode s node with
  | .error .notFound =>
    let o := CreateNode node s iv
    ⟨o.res, o.s, .getC node.name (.error .notFound) :: o.tr, o.iv⟩
  | .error e => ⟨.error (.store e), s, [.getC node.name (.error e)], iv⟩
  | .ok st =>
    let o := UpdateNode node s iv
    ⟨o.res, o.s, .getC node.name (.ok st) :: o.tr, o.iv⟩

/-- `DeleteNode`: issue the delete and return the registry's outcome
unchanged (no special-casing of any error). -/
def DeleteNode (node : Node) (s : Store) (iv : List Intervene) : OpOut :=
  match storeDelete s node.name with
  | .ok s2 => ⟨.ok (), s2, [.deleteC node.name (.ok ())], iv⟩
  | .error e => ⟨.error (.store e), s, [.deleteC node.name (.error e)], iv⟩

/-- Modelled from the spec: `UniqueResourceName` (defined in the
`controllermanager` package outside this source file) resolves the node's
identity deterministically from its identifying metadata; it must resolve
to a non-empty, unambiguous key or identity resolution fails. -/
def UniqueResourceName (node : Node) : Except Err Node :=
  if node.name == "" then .error (.identity "unique name is empty") else .ok node

/-- `reporter.NodeResourceStatus` as consumed by the dispatcher: an
optional full-snapshot list, an optional update map, an optional delete
map (`Option` embeds Go's nil-map / nil-slice distinction; the lists fix
one map iteration order). -/
structure NodeResourceStatus where
  fullList : Option (List Node)
  updateMap : Option (List (String × Node))
  delMap : Option (List (String × Node))
deriving Repr, DecidableEq

/-- A byte envelope, abstracted to what the strict decoder distinguishes:
either malformed bytes or the encoding of a structured report. -/
inductive Envelope where
  | malformed (raw : String)
  | wellFormed (nrs : NodeResourceStatus)
deriving Repr, DecidableEq

/-- Modelled from the spec: `NodeReportStatusDeserialize` performs a strict
structural decode of the envelope (`json.Unmarshal` into
`reporter.NodeResourceStatus`); any malformed input yields a decode error
and no partial result. -/
def NodeReportStatusDeserialize : Envelope → Except Err NodeResourceStatus
  | .malformed raw => .error (.decode raw)
  | .wellFormed nrs => .ok nrs

/-- Result of processing one batch (update map or delete map): final
registry, registry calls, leftover concurrent-writer events, and the
per-entry outcomes in order (errors among them are logged and skipped). -/
structure BatchOut where
  s : Store
  tr : List RegCall
  iv : List Intervene
  logs : List (Except Err Unit)
deriving Repr, DecidableEq

/-- `handleNodeDelMap`: for each entry, resolve identity then delete;
every failure is logged (recorded in `logs`) and the loop continues. -/
def handleNodeDelMap (s : Store) (delMap : List (String × Node)) (iv : List Intervene) : BatchOut :=
  match delMap with
  | [] => ⟨s, [], iv, []⟩
  | (_, node) :: rest =>
    match UniqueResourceName node with
    | .error e =>
      let b := handleNodeDelMap s rest iv
      ⟨b.s, b.tr, b.iv, .error e :: b.logs⟩
    | .ok node' =>
      let o := DeleteNode node' s iv
      let b := handleNodeDelMap o.s rest o.iv
      ⟨b.s, o.tr ++ b.tr, b.iv, o.res :: b.logs⟩

/-- `handleNodeUpdateMap`: for each entry, resolve identity then create or
update; every failure is logged and the loop continues. -/
def handleNodeUpdateMap (s : Store) (updateMap : List (String × Node)) (iv : List Intervene) : BatchOut :=
  match updateMap with
  | [] => ⟨s, [], iv, []⟩
  | (_, node) :: rest =>
    match UniqueResourceName node with
    | .error e =>
      let b := handleNodeUpdateMap s rest iv
      ⟨b.s, b.tr, b.iv, .error e :: b.logs⟩
    | .ok node' =>
      let o := CreateOrUpdateNode node' s iv
      let b := handleNodeUpdateMap o.s rest o.iv
      ⟨b.s, o.tr ++ b.tr, b.iv, o.res :: b.logs⟩

/-- A registry call that writes (create, update or delete). -/
def isWriteCall : RegCall → Bool
  | .getC _ _ => false
  | _ => true

/-- A registry delete call. -/
def isDeleteCall : RegCall → Bool
  | .deleteC _ _ => true
  | _ => false

/-- The errors produced by the version gate (`checkNodeEdgeVersion`):
empty/missing label, unparseable label, or stale version — the spec's
`VersionError` family. -/
def isVersionGateErr : Err → Bool
  | .emptyVersion => true
  | .atoi _ => true
  | .staleVersion _ _ => true
  | _ => false

/-- Every update call in a trace is immediately preceded by a successful
read of the same name, and writes back exactly the concurrency token that
read returned. -/
def updatesUseFreshRead : List RegCall → Bool
  | .getC name (.ok st) :: .updateC n _ :: rest =>
    n.name == name && n.resourceVersion == st.resourceVersion && updatesUseFreshRead rest
  | .updateC _ _ :: _ => false
  | _ :: rest => updatesUseFreshRead rest
  | [] => true

/-- Every update call that failed with a conflict is immediately followed
by a fresh read of the same name (the cycle restarts). -/
def conflictRetriedWithFreshGet : List RegCall → Bool
  | .updateC n (.error .conflict) :: rest =>
    (match rest with
     | .getC name _ :: _ => n.name == name
     | _ => false) && conflictRetriedWithFreshGet rest
  | _ :: rest => conflictRetriedWithFreshGet rest
  | [] => true

/-- Every update call that failed with anything other than a conflict is
the last registry call of the trace (no retry after a non-conflict store
failure). -/
def nonConflictWriteErrorIsLast : List RegCall → Bool
  | .updateC _ (.error .conflict) :: rest => nonConflictWriteErrorIsLast rest
  | .updateC _ (.error _) :: rest => rest.isEmpty
  | _ :: rest => nonConflictWriteErrorIsLast rest
  | [] => true

/-- Result of dispatching one report. -/
structure ReportOut where
  res : Except Err Unit
  s : Store
  tr : List RegCall
  iv : List Intervene
  logs : List (Except Err Unit)
deriving Repr, DecidableEq

/-- `handleNodeReport`: decode; on failure return the decode error having
done nothing. Otherwise the full list is left unhandled (a `TODO` in the
source), then the update map is processed if present, then the delete map
if present, and the report succeeds regardless of entry outcomes. -/
def handleNodeReport (env : Envelope) (s : Store) (iv : List Intervene) : ReportOut :=
  match NodeReportStatusDeserialize env with
  | .error e => ⟨.error e, s, [], iv, []⟩
  | .ok nrs =>
    let u : BatchOut := match nrs.updateMap with
      | none => ⟨s, [], iv, []⟩
      | some m => handleNodeUpdateMap s m iv
    let d : BatchOut := match nrs.delMap with
      | none => ⟨u.s, [], u.iv, []⟩
      | some m => handleNodeDelMap u.s m u.iv
    ⟨.ok (), d.s, u.tr ++ d.tr, d.iv, u.logs ++ d.logs⟩

/-- A node fixture carrying an edge-version label. -/
def testNode (name v : String) : Node := ⟨name, [(EdgeVersionLabel, v)], 0⟩

/-- A node fixture with no labels at all. -/
def bareNode (name : String) : Node := ⟨name, [], 0⟩

/-- The empty registry. -/
def emptyStore : Store := ⟨[], 0⟩

lemma goAtoi_ok_ne_empty {str : String} {v : Int} (h : goAtoi str = .ok v) :
    (str == "") = false := by
  rcases he : (str == "") with _ | _
  · rfl
  · exfalso
    have : str = "" := eq_of_beq he
    subst this
    exact Except.noConfusion h

lemma storeGet_ok_find {s : Store} {name : String} {n : Node} (h : storeGet s name = .ok n) :
    s.nodes.find? (fun p => p.1 == name) = some (name, n) := by
  unfold storeGet at h
  rcases hf : s.nodes.find? (fun p => p.1 == name) with _ | p
  · rw [hf] at h; exact Except.noConfusion h
  · rw [hf] at h
    have hp := List.find?_some hf
    simp at hp
    have h2 : p.2 = n := by simpa using h
    rw [hf]
    cases p
    simp_all

lemma find?_map_set (l : List (String × Node)) (name : String) (n' : Node)
    (h : (l.find? (fun p => p.1 == name)).isSome = true) :
    (l.map (fun q => if q.1 == name then (name, n') else q)).find? (fun p => p.1 == name)
      = some (name, n') := by
  induction l with
  | nil => simp at h
  | cons a l ih =>
    rcases ha : (a.1 == name) with _ | _
    · simp only [List.map_cons]
      rw [if_neg (by simp [ha])]
      rw [List.find?_cons, ha] at h
      simp only [List.find?_cons, ha]
      exact ih h
    · simp only [List.map_cons]
      rw [if_pos (by exact ha)]
      simp [List.find?_cons]

lemma storeUpdate_fresh {s : Store} {st n : Node}
    (hg : storeGet s n.name = .ok st) (hrv : n.resourceVersion = st.resourceVersion) :
    storeUpdate s n = .ok ({ n with resourceVersion := s.nextRV },
      { nodes := s.nodes.map (fun q => if q.1 == n.name then (n.name, { n with resourceVersion := s.nextRV }) else q),
        nextRV := s.nextRV + 1 }) := by
  have hf := storeGet_ok_find hg
  unfold storeUpdate
  rw [hf]
  simp [hrv]

lemma storeGet_map_set {s : Store} {name : String} {st : Node} (n' : Node) (r : Nat)
    (hg : storeGet s name = .ok st) :
    storeGet ⟨s.nodes.map (fun q => if q.1 == name then (name, n') else q), r⟩ name = .ok n' := by
  unfold storeGet
  rw [find?_map_set _ _ _ (by rw [storeGet_ok_find hg]; rfl)]

lemma storeGet_cons_self (name : String) (n : Node) (nodes : List (String × Node)) (r : Nat) :
    storeGet ⟨(name, n) :: nodes, r⟩ name = .ok n := by
  unfold storeGet
  simp [List.find?_cons]

lemma goAtoi_error_form {str : String} {e : Err} (h : goAtoi str = .error e) : e = .atoi str := by
  unfold goAtoi goAtoiCore at h
  repeat' split at h
  all_goals first
    | exact ((Except.error.injEq _ _).mp h).symm
    | exact Except.noConfusion h

lemma checkNodeEdgeVersion_ok_iff (node stored : Node) :
    checkNodeEdgeVersion node stored = .ok () ↔
      ∃ vn vs : Int, goAtoi (getLabel node.labels EdgeVersionLabel) = .ok vn ∧
        goAtoi (getLabel stored.labels EdgeVersionLabel) = .ok vs ∧ vs < vn := by
  constructor
  · intro h
    unfold checkNodeEdgeVersion at h
    by_cases hemp : (getLabel node.labels EdgeVersionLabel == "") = true ∨
        (getLabel stored.labels EdgeVersionLabel == "") = true
    · rw [if_pos hemp] at h; exact Except.noConfusion h
    · rw [if_neg hemp] at h
      rcases hn : goAtoi (getLabel node.labels EdgeVersionLabel) with e | vn
      · simp only [hn] at h; exact Except.noConfusion h
      · simp only [hn] at h
        rcases hs : goAtoi (getLabel stored.labels EdgeVersionLabel) with e | vs
        · simp only [hs] at h; exact Except.noConfusion h
        · simp only [hs] at h
          by_cases hle : vn ≤ vs
          · rw [if_pos hle] at h; exact Except.noConfusion h
          · exact ⟨vn, vs, rfl, rfl, by omega⟩
  · rintro ⟨vn, vs, hn, hs, hlt⟩
    unfold checkNodeEdgeVersion
    rw [if_neg (by simp [goAtoi_ok_ne_empty hn, goAtoi_ok_ne_empty hs])]
    simp only [hn, hs]
    rw [if_neg (by omega)]

lemma checkNodeEdgeVersion_same_label (node st : Node)
    (h : getLabel st.labels EdgeVersionLabel = getLabel node.labels EdgeVersionLabel) :
    ∃ e, checkNodeEdgeVersion node st = .error e ∧ isVersionGateErr e = true := by
  unfold checkNodeEdgeVersion
  rw [h]
  by_cases hL : (getLabel node.labels EdgeVersionLabel == "") = true
  · exact ⟨.emptyVersion, if_pos (Or.inl hL), rfl⟩
  · rw [if_neg (by simp [hL])]
    rcases hA : goAtoi (getLabel node.labels EdgeVersionLabel) with e | v
    · refine ⟨e, ?_, ?_⟩
      · simp only [hA]
      · rw [goAtoi_error_form hA]; rfl
    · refine ⟨.staleVersion (getLabel node.labels EdgeVersionLabel)
        (getLabel node.labels EdgeVersionLabel), ?_, rfl⟩
      simp only [hA]
      rw [if_pos (le_refl v)]

lemma updateNodeFuel_succ (f : Nat) (node : Node) (s : Store) (iv : List Intervene) :
    UpdateNodeFuel (f + 1) node s iv = updateNodeStep (UpdateNodeFuel f) node s iv := rfl

lemma updateNodeStep_get_error (recur : Node → Store → List Intervene → OpOut)
    (node : Node) (s : Store) (iv : List Intervene)
    {e : KErr} (hg : GetNode s node = .error e) :
    updateNodeStep recur node s iv = ⟨.error (.store e), s, [.getC node.name (.error e)], iv⟩ := by
  unfold updateNodeStep
  simp only [hg]

lemma updateNodeStep_check_error (recur : Node → Store → List Intervene → OpOut)
    {node st : Node} (s : Store) (iv : List Intervene)
    {e : Err} (hg : GetNode s node = .ok st) (hc : checkNodeEdgeVersion node st = .error e) :
    updateNodeStep recur node s iv = ⟨.error e, s, [.getC node.name (.ok st)], iv⟩ := by
  unfold updateNodeStep
  simp only [hg, hc]

lemma updateNodeStep_nil_ok (recur : Node → Store → List Intervene → OpOut) {node st : Node} {s : Store}
    (hg : GetNode s node = .ok st) (hc : checkNodeEdgeVersion node st = .ok ()) :
    updateNodeStep recur node s [] =
      ⟨.ok (),
       ⟨s.nodes.map (fun q => if q.1 == node.name then (node.name, { node with resourceVersion := s.nextRV }) else q),
        s.nextRV + 1⟩,
       [.getC node.name (.ok st),
        .updateC { node with resourceVersion := st.resourceVersion } (.ok { node with resourceVersion := s.nextRV })],
       []⟩ := by
  have hup := @storeUpdate_fresh s st { node with resourceVersion := st.resourceVersion } hg rfl
  unfold updateNodeStep
  simp only [hg, hc, hup, List.tail_nil]

lemma uufr_nil : updatesUseFreshRead [] = true := rfl

lemma uufr_single_get (name : String) (r : Except KErr Node) :
    updatesUseFreshRead [.getC name r] = true := by
  cases r <;> rfl

lemma uufr_get_update (name : String) (st n : Node) (r : Except KErr Node) (rest : List RegCall) :
    updatesUseFreshRead (.getC name (.ok st) :: .updateC n r :: rest) =
      (n.name == name && n.resourceVersion == st.resourceVersion && updatesUseFreshRead rest) := rfl

lemma crfg_nil : conflictRetriedWithFreshGet [] = true := rfl

lemma crfg_get (name : String) (r : Except KErr Node) (rest : List RegCall) :
    conflictRetriedWithFreshGet (.getC name r :: rest) = conflictRetriedWithFreshGet rest := rfl

lemma crfg_update_ok (n m : Node) (rest : List RegCall) :
    conflictRetriedWithFreshGet (.updateC n (.ok m) :: rest) = conflictRetriedWithFreshGet rest := rfl

lemma crfg_update_conflict (n : Node) (rest : List RegCall) :
    conflictRetriedWithFreshGet (.updateC n (.error .conflict) :: rest) =
      ((match rest with | .getC name _ :: _ => n.name == name | _ => false) &&
        conflictRetriedWithFreshGet rest) := rfl

lemma crfg_update_other (n : Node) (rest : List RegCall) {e : KErr} (he : e ≠ .conflict) :
    conflictRetriedWithFreshGet (.updateC n (.error e) :: rest) = conflictRetriedWithFreshGet rest := by
  cases e
  · rfl
  · exact absurd rfl he
  · rfl

lemma ncwe_nil : nonConflictWriteErrorIsLast [] = true := rfl

lemma ncwe_get (name : String) (r : Except KErr Node) (rest : List RegCall) :
    nonConflictWriteErrorIsLast (.getC name r :: rest) = nonConflictWriteErrorIsLast rest := rfl

lemma ncwe_update_ok (n m : Node) (rest : List RegCall) :
    nonConflictWriteErrorIsLast (.updateC n (.ok m) :: rest) = nonConflictWriteErrorIsLast rest := rfl

lemma ncwe_update_conflict (n : Node) (rest : List RegCall) :
    nonConflictWriteErrorIsLast (.updateC n (.error .conflict) :: rest) =
      nonConflictWriteErrorIsLast rest := rfl

lemma ncwe_update_other (n : Node) (rest : List RegCall) {e : KErr} (he : e ≠ .conflict) :
    nonConflictWriteErrorIsLast (.updateC n (.error e) :: rest) = rest.isEmpty := by
  cases e
  · rfl
  · exact absurd rfl he
  · rfl

lemma checkNodeEdgeVersion_error_gate {node st : Node} {e : Err}
    (h : checkNodeEdgeVersion node st = .error e) : isVersionGateErr e = true := by
  unfold checkNodeEdgeVersion at h
  by_cases hemp : (getLabel node.labels EdgeVersionLabel == "") = true ∨
      (getLabel st.labels EdgeVersionLabel == "") = true
  · rw [if_pos hemp] at h
    have he := (Except.error.injEq _ _).mp h
    rw [← he]; rfl
  · rw [if_neg hemp] at h
    rcases hn : goAtoi (getLabel node.labels EdgeVersionLabel) with e1 | vn
    · simp only [hn] at h
      have he := (Except.error.injEq _ _).mp h
      rw [← he, goAtoi_error_form hn]; rfl
    · simp only [hn] at h
      rcases hs : goAtoi (getLabel st.labels EdgeVersionLabel) with e2 | vs
      · simp only [hs] at h
        have he := (Except.error.injEq _ _).mp h
        rw [← he, goAtoi_error_form hs]; rfl
      · simp only [hs] at h
        by_cases hle : vn ≤ vs
        · rw [if_pos hle] at h
          have he := (Except.error.injEq _ _).mp h
          rw [← he]; rfl
        · rw [if_neg hle] at h; exact Except.noConfusion h

lemma updateNodeFuel_tr_head (f : Nat) (node : Node) (s : Store) (iv : List Intervene)
    (hf : 0 < f) :
    ∃ r rest, (UpdateNodeFuel f node s iv).tr = .getC node.name r :: rest := by
  cases f with
  | zero => exact absurd hf (lt_irrefl 0)
  | succ f =>
    rw [updateNodeFuel_succ]
    rcases hg : GetNode s node with e | st
    · rw [updateNodeStep_get_error _ _ _ _ hg]; exact ⟨_, _, rfl⟩
    · rcases hc : checkNodeEdgeVersion node st with e | u
      · rw [updateNodeStep_check_error _ _ _ hg hc]; exact ⟨_, _, rfl⟩
      · cases u
        rcases iv with _ | ⟨w, ivt⟩
        · rw [updateNodeStep_nil_ok _ hg hc]; exact ⟨_, _, rfl⟩
        · unfold updateNodeStep
          simp only [hg, hc, List.tail_cons]
          rcases hu : storeUpdate (applyIntervene s w)
              { node with resourceVersion := st.resourceVersion } with ke | pr
          · cases ke <;> simp only [hu] <;> exact ⟨_, _, rfl⟩
          · rcases pr with ⟨n2, s2⟩
            simp only [hu]
            exact ⟨_, _, rfl⟩

lemma updateNodeFuel_master :
    ∀ (f : Nat) (node : Node) (s : Store) (iv : List Intervene), iv.length < f →
      updatesUseFreshRead (UpdateNodeFuel f node s iv).tr = true ∧
      conflictRetriedWithFreshGet (UpdateNodeFuel f node s iv).tr = true ∧
      nonConflictWriteErrorIsLast (UpdateNodeFuel f node s iv).tr = true ∧
      (∀ n e, RegCall.updateC n (.error e) ∈ (UpdateNodeFuel f node s iv).tr → e ≠ .conflict →
          (UpdateNodeFuel f node s iv).res = .error (.store e)) ∧
      (UpdateNodeFuel f node s iv).res ≠ .error .fuel := by
  intro f
  induction f with
  | zero => intro node s iv h; exact absurd h (Nat.not_lt_zero _)
  | succ f ih =>
    intro node s iv hlen
    rw [updateNodeFuel_succ]
    rcases hg : GetNode s node with e | st
    · rw [updateNodeStep_get_error _ _ _ _ hg]
      refine ⟨uufr_single_get _ _, ?_, ?_, ?_, ?_⟩
      · rw [crfg_get]; exact crfg_nil
      · rw [ncwe_get]; exact ncwe_nil
      · intro n e' hmem he'; simp at hmem
      · simp
    · rcases hc : checkNodeEdgeVersion node st with e | u
      · rw [updateNodeStep_check_error _ _ _ hg hc]
        refine ⟨uufr_single_get _ _, ?_, ?_, ?_, ?_⟩
        · rw [crfg_get]; exact crfg_nil
        · rw [ncwe_get]; exact ncwe_nil
        · intro n e' hmem he'; simp at hmem
        · have := checkNodeEdgeVersion_error_gate hc
          cases e <;> simp_all [isVersionGateErr]
      · cases u
        rcases iv with _ | ⟨w, ivt⟩
        · rw [updateNodeStep_nil_ok _ hg hc]
          refine ⟨?_, ?_, ?_, ?_, ?_⟩
          · rw [uufr_get_update]; simp [uufr_nil]
          · rw [crfg_get, crfg_update_ok]; exact crfg_nil
          · rw [ncwe_get, ncwe_update_ok]; exact ncwe_nil
          · intro n e' hmem he'; simp at hmem
          · simp
        · have hlen' : ivt.length < f := by simp [List.length_cons] at hlen; omega
          rcases hu : storeUpdate (applyIntervene s w)
              { node with resourceVersion := st.resourceVersion } with ke | pr
          · cases ke with
            | notFound =>
              have heq : updateNodeStep (UpdateNodeFuel f) node s (w :: ivt) =
                  ⟨.error (.store .notFound), applyIntervene s w,
                   [.getC node.name (.ok st),
                    .updateC { node with resourceVersion := st.resourceVersion } (.error .notFound)],
                   ivt⟩ := by
                unfold updateNodeStep
                simp only [hg, hc, List.tail_cons, hu]
              rw [heq]
              refine ⟨?_, ?_, ?_, ?_, ?_⟩
              · rw [uufr_get_update]; simp [uufr_nil]
              · rw [crfg_get, crfg_update_other _ _ (by simp)]; exact crfg_nil
              · rw [ncwe_get, ncwe_update_other _ _ (by simp)]; rfl
              · intro n e' hmem he'
                simp at hmem
                rcases hmem with ⟨h1, h2⟩
                rw [h2]
              · simp
            | conflict =>
              have heq : updateNodeStep (UpdateNodeFuel f) node s (w :: ivt) =
                  ⟨(UpdateNodeFuel f { node with resourceVersion := st.resourceVersion } (applyIntervene s w) ivt).res,
                   (UpdateNodeFuel f { node with resourceVersion := st.resourceVersion } (applyIntervene s w) ivt).s,
                   .getC node.name (.ok st) ::
                     .updateC { node with resourceVersion := st.resourceVersion } (.error .conflict) ::
                     (UpdateNodeFuel f { node with resourceVersion := st.resourceVersion } (applyIntervene s w) ivt).tr,
                   (UpdateNodeFuel f { node with resourceVersion := st.resourceVersion } (applyIntervene s w) ivt).iv⟩ := by
                unfold updateNodeStep
                simp only [hg, hc, List.tail_cons, hu]
              rw [heq]
              obtain ⟨ih1, ih2, ih3, ih4, ih5⟩ :=
                ih { node with resourceVersion := st.resourceVersion } (applyIntervene s w) ivt hlen'
              obtain ⟨r0, rest0, hhead⟩ :=
                updateNodeFuel_tr_head f { node with resourceVersion := st.resourceVersion }
                  (applyIntervene s w) ivt (lt_of_le_of_lt (Nat.zero_le _) hlen')
              refine ⟨?_, ?_, ?_, ?_, ?_⟩
              · rw [uufr_get_update]
                simp [ih1]
              · rw [crfg_get, crfg_update_conflict]
                rw [hhead] at ih2 ⊢
                simp [ih2]
              · rw [ncwe_get, ncwe_update_conflict]
                exact ih3
              · intro n e' hmem he'
                simp only [List.mem_cons] at hmem
                rcases hmem with h1 | h2 | hmem
                · exact absurd h1 (by simp)
                · injection h2 with hn hr
                  injection hr with he2
                  exact absurd he2 he'
                · exact ih4 n e' hmem he'
              · exact ih5
            | other msg =>
              have heq : updateNodeStep (UpdateNodeFuel f) node s (w :: ivt) =
                  ⟨.error (.store (.other msg)), applyIntervene s w,
                   [.getC node.name (.ok st),
                    .updateC { node with resourceVersion := st.resourceVersion } (.error (.other msg))],
                   ivt⟩ := by
                unfold updateNodeStep
                simp only [hg, hc, List.tail_cons, hu]
              rw [heq]
              refine ⟨?_, ?_, ?_, ?_, ?_⟩
              · rw [uufr_get_update]; simp [uufr_nil]
              · rw [crfg_get, crfg_update_other _ _ (by simp)]; exact crfg_nil
              · rw [ncwe_get, ncwe_update_other _ _ (by simp)]; rfl
              · intro n e' hmem he'
                simp at hmem
                rcases hmem with ⟨h1, h2⟩
                rw [h2]
              · simp
          · rcases pr with ⟨n2, s2⟩
            have heq : updateNodeStep (UpdateNodeFuel f) node s (w :: ivt) =
                ⟨.ok (), s2,
                 [.getC node.name (.ok st),
                  .updateC { node with resourceVersion := st.resourceVersion } (.ok n2)],
                 ivt⟩ := by
              unfold updateNodeStep
              simp only [hg, hc, List.tail_cons, hu]
            rw [heq]
            refine ⟨?_, ?_, ?_, ?_, ?_⟩
            · rw [uufr_get_update]; simp [uufr_nil]
            · rw [crfg_get, crfg_update_ok]; exact crfg_nil
            · rw [ncwe_get, ncwe_update_ok]; exact ncwe_nil
            · intro n e' hmem he'; simp at hmem
            · simp

lemma storeGet_notFound_find {s : Store} {name : String}
    (h : storeGet s name = .error .notFound) :
    s.nodes.find? (fun p => p.1 == name) = none := by
  unfold storeGet at h
  rcases hf : s.nodes.find? (fun p => p.1 == name) with _ | p
  · exact hf
  · rw [hf] at h; exact Except.noConfusion h

lemma updateNode_get_error {node : Node} {s : Store} (iv : List Intervene) {e : KErr}
    (hg : GetNode s node = .error e) :
    UpdateNode node s iv = ⟨.error (.store e), s, [.getC node.name (.error e)], iv⟩ := by
  unfold UpdateNode
  rw [updateNodeFuel_succ, updateNodeStep_get_error _ _ _ _ hg]

lemma updateNode_check_error {node st : Node} {s : Store} (iv : List Intervene) {e : Err}
    (hg : GetNode s node = .ok st) (hc : checkNodeEdgeVersion node st = .error e) :
    UpdateNode node s iv = ⟨.error e, s, [.getC node.name (.ok st)], iv⟩ := by
  unfold UpdateNode
  rw [updateNodeFuel_succ, updateNodeStep_check_error _ _ _ hg hc]

lemma updateNode_nil_ok {node st : Node} {s : Store}
    (hg : GetNode s node = .ok st) (hc : checkNodeEdgeVersion node st = .ok ()) :
    UpdateNode node s [] =
      ⟨.ok (),
       ⟨s.nodes.map (fun q => if q.1 == node.name then (node.name, { node with resourceVersion := s.nextRV }) else q),
        s.nextRV + 1⟩,
       [.getC node.name (.ok st),
        .updateC { node with resourceVersion := st.resourceVersion } (.ok { node with resourceVersion := s.nextRV })],
       []⟩ := by
  unfold UpdateNode
  rw [updateNodeFuel_succ, updateNodeStep_nil_ok _ hg hc]

lemma createOrUpdate_absent {node : Node} {s : Store} (iv : List Intervene)
    (hg : GetNode s node = .error .notFound) :
    CreateOrUpdateNode node s iv =
      ⟨.ok (), ⟨(node.name, { node with resourceVersion := s.nextRV }) :: s.nodes, s.nextRV + 1⟩,
       [.getC node.name (.error .notFound), .createC node (.ok { node with resourceVersion := s.nextRV })],
       iv⟩ := by
  have hsc : storeCreate s node = .ok ({ node with resourceVersion := s.nextRV },
      ⟨(node.name, { node with resourceVersion := s.nextRV }) :: s.nodes, s.nextRV + 1⟩) := by
    unfold storeCreate
    rw [storeGet_notFound_find hg]
  unfold CreateOrUpdateNode CreateNode
  simp only [hg, hsc]

lemma createOrUpdate_get_error {node : Node} {s : Store} (iv : List Intervene) {e : KErr}
    (hg : GetNode s node = .error e) (hne : e ≠ .notFound) :
    CreateOrUpdateNode node s iv = ⟨.error (.store e), s, [.getC node.name (.error e)], iv⟩ := by
  unfold CreateOrUpdateNode
  cases e with
  | notFound => exact absurd rfl hne
  | conflict => simp only [hg]
  | other msg => simp only [hg]

lemma createOrUpdate_present {node st : Node} {s : Store} (iv : List Intervene)
    (hg : GetNode s node = .ok st) :
    CreateOrUpdateNode node s iv =
      ⟨(UpdateNode node s iv).res, (UpdateNode node s iv).s,
       .getC node.name (.ok st) :: (UpdateNode node s iv).tr, (UpdateNode node s iv).iv⟩ := by
  unfold CreateOrUpdateNode
  simp only [hg]

lemma createOrUpdate_nil_ok_stored (node : Node) (s : Store)
    (h : (CreateOrUpdateNode node s []).res = .ok ()) :
    GetNode (CreateOrUpdateNode node s []).s node = .ok { node with resourceVersion := s.nextRV } := by
  rcases hg : GetNode s node with e | st
  · cases e with
    | notFound =>
      rw [createOrUpdate_absent _ hg]
      exact storeGet_cons_self _ _ _ _
    | conflict =>
      rw [createOrUpdate_get_error _ hg (by simp)] at h
      exact Except.noConfusion h
    | other msg =>
      rw [createOrUpdate_get_error _ hg (by simp)] at h
      exact Except.noConfusion h
  · rw [createOrUpdate_present _ hg] at h ⊢
    rcases hc : checkNodeEdgeVersion node st with e | u
    · rw [updateNode_check_error _ hg hc] at h
      exact Except.noConfusion h
    · cases u
      rw [updateNode_nil_ok hg hc]
      exact storeGet_map_set _ _ hg

lemma updateNode_def (node : Node) (s : Store) (iv : List Intervene) :
    UpdateNode node s iv = UpdateNodeFuel (iv.length + 1) node s iv := rfl

lemma deleteNode_error {node : Node} {s : Store} (iv : List Intervene) {e : KErr}
    (hd : storeDelete s node.name = .error e) :
    DeleteNode node s iv = ⟨.error (.store e), s, [.deleteC node.name (.error e)], iv⟩ := by
  unfold DeleteNode
  simp only [hd]

lemma deleteNode_ok {node : Node} {s : Store} (iv : List Intervene) {s2 : Store}
    (hd : storeDelete s node.name = .ok s2) :
    DeleteNode node s iv = ⟨.ok (), s2, [.deleteC node.name (.ok ())], iv⟩ := by
  unfold DeleteNode
  simp only [hd]

lemma deleteNode_tr_len (node : Node) (s : Store) (iv : List Intervene) :
    (DeleteNode node s iv).tr.length = 1 := by
  unfold DeleteNode
  rcases hd : storeDelete s node.name with e | s2 <;> simp only [hd] <;> rfl

lemma deleteNode_res {node : Node} {s : Store} (iv : List Intervene) :
    (DeleteNode node s iv).res =
      match storeDelete s node.name with
      | .ok _ => .ok ()
      | .error e => .error (.store e) := by
  unfold DeleteNode
  rcases hd : storeDelete s node.name with e | s2 <;> simp only [hd]

lemma handleNodeDelMap_logs_len (dm : List (String × Node)) :
    ∀ (s : Store) (iv : List Intervene), (handleNodeDelMap s dm iv).logs.length = dm.length := by
  induction dm with
  | nil => intro s iv; rfl
  | cons a rest ih =>
    intro s iv
    rcases a with ⟨k, node⟩
    unfold handleNodeDelMap
    rcases hu : UniqueResourceName node with e | node' <;> simp only [hu] <;> simp [ih]

lemma handleNodeUpdateMap_logs_len (um : List (String × Node)) :
    ∀ (s : Store) (iv : List Intervene), (handleNodeUpdateMap s um iv).logs.length = um.length := by
  induction um with
  | nil => intro s iv; rfl
  | cons a rest ih =>
    intro s iv
    rcases a with ⟨k, node⟩
    unfold handleNodeUpdateMap
    rcases hu : UniqueResourceName node with e | node' <;> simp only [hu] <;> simp [ih]

lemma updateNodeFuel_no_delete (f : Nat) :
    ∀ (node : Node) (s : Store) (iv : List Intervene),
      ((UpdateNodeFuel f node s iv).tr.all (fun c => !isDeleteCall c)) = true := by
  induction f with
  | zero => intro node s iv; rfl
  | succ f ih =>
    intro node s iv
    rw [updateNodeFuel_succ]
    rcases hg : GetNode s node with e | st
    · rw [updateNodeStep_get_error _ _ _ _ hg]; rfl
    · rcases hc : checkNodeEdgeVersion node st with e | u
      · rw [updateNodeStep_check_error _ _ _ hg hc]; rfl
      · cases u
        rcases iv with _ | ⟨w, ivt⟩
        · rw [updateNodeStep_nil_ok _ hg hc]; rfl
        · rcases hu : storeUpdate (applyIntervene s w)
              { node with resourceVersion := st.resourceVersion } with ke | pr
          · cases ke with
            | notFound =>
              unfold updateNodeStep
              simp only [hg, hc, List.tail_cons, hu]
              rfl
            | conflict =>
              unfold updateNodeStep
              simp only [hg, hc, List.tail_cons, hu, List.all_cons]
              rw [ih]
              rfl
            | other msg =>
              unfold updateNodeStep
              simp only [hg, hc, List.tail_cons, hu]
              rfl
          · rcases pr with ⟨n2, s2⟩
            unfold updateNodeStep
            simp only [hg, hc, List.tail_cons, hu]
            rfl

lemma createOrUpdate_no_delete (node : Node) (s : Store) (iv : List Intervene) :
    ((CreateOrUpdateNode node s iv).tr.all (fun c => !isDeleteCall c)) = true := by
  rcases hg : GetNode s node with e | st
  · cases e with
    | notFound => rw [createOrUpdate_absent _ hg]; rfl
    | conflict => rw [createOrUpdate_get_error _ hg (by simp)]; rfl
    | other msg => rw [createOrUpdate_get_error _ hg (by simp)]; rfl
  · rw [createOrUpdate_present _ hg]
    simp only [List.all_cons, updateNode_def]
    rw [updateNodeFuel_no_delete]
    rfl

lemma handleNodeUpdateMap_no_delete (um : List (String × Node)) :
    ∀ (s : Store) (iv : List Intervene),
      ((handleNodeUpdateMap s um iv).tr.all (fun c => !isDeleteCall c)) = true := by
  induction um with
  | nil => intro s iv; rfl
  | cons a rest ih =>
    intro s iv
    rcases a with ⟨k, node⟩
    unfold handleNodeUpdateMap
    rcases hu : UniqueResourceName node with e | node' <;> simp only [hu]
    · exact ih s iv
    · simp [List.all_append, createOrUpdate_no_delete, ih]

lemma deleteNode_all_delete (node : Node) (s : Store) (iv : List Intervene) :
    ((DeleteNode node s iv).tr.all isDeleteCall) = true := by
  unfold DeleteNode
  rcases hd : storeDelete s node.name with e | s2 <;> simp only [hd] <;> rfl

lemma handleNodeDelMap_all_delete (dm : List (String × Node)) :
    ∀ (s : Store) (iv : List Intervene),
      ((handleNodeDelMap s dm iv).tr.all isDeleteCall) = true := by
  induction dm with
  | nil => intro s iv; rfl
  | cons a rest ih =>
    intro s iv
    rcases a with ⟨k, node⟩
    unfold handleNodeDelMap
    rcases hu : UniqueResourceName node with e | node' <;> simp only [hu]
    · exact ih s iv
    · simp [List.all_append, deleteNode_all_delete, ih]

lemma handleNodeReport_malformed (raw : String) (s : Store) (iv : List Intervene) :
    handleNodeReport (.malformed raw) s iv = ⟨.error (.decode raw), s, [], iv, []⟩ := rfl

lemma handleNodeReport_wf_res (nrs : NodeResourceStatus) (s : Store) (iv : List Intervene) :
    (handleNodeReport (.wellFormed nrs) s iv).res = .ok () := rfl

/-- C2: the version gate `checkNodeEdgeVersion` accepts (returns no error)
exactly when both the incoming and the stored edge-version labels parse as
integers and the incoming version is strictly greater than the stored one;
a missing or empty label yields the empty-version error, and any other
failure case (unparseable label, equal or lower version) also yields an
error, by the first conjunct. -/
theorem C2_version_gate_accepts_iff_strictly_greater (node stored : Node) :
    (checkNodeEdgeVersion node stored = .ok () ↔
      ∃ vn vs : Int, goAtoi (getLabel node.labels EdgeVersionLabel) = .ok vn ∧
        goAtoi (getLabel stored.labels EdgeVersionLabel) = .ok vs ∧ vs < vn) ∧
    (getLabel node.labels EdgeVersionLabel = "" ∨ getLabel stored.labels EdgeVersionLabel = "" →
      checkNodeEdgeVersion node stored = .error .emptyVersion) := by
  refine ⟨checkNodeEdgeVersion_ok_iff node stored, ?_⟩
  intro h
  unfold checkNodeEdgeVersion
  rcases h with h | h
  · rw [if_pos (Or.inl (by rw [h]; rfl))]
  · rw [if_pos (Or.inr (by rw [h]; rfl))]

/-- C2 witness: the gate accepts version 2 over stored version 1, and
rejects a node with no edge-version label with the empty-version error. -/
theorem C2_witness :
    checkNodeEdgeVersion (testNode "a" "2") (testNode "a" "1") = .ok () ∧
    checkNodeEdgeVersion (bareNode "a") (testNode "a" "1") = .error .emptyVersion :=
  ⟨(C2_version_gate_accepts_iff_strictly_greater (testNode "a" "2") (testNode "a" "1")).1.mpr
      ⟨2, 1, by decide, by decide, by decide⟩,
   (C2_version_gate_accepts_iff_strictly_greater (bareNode "a") (testNode "a" "1")).2
      (Or.inl (by decide))⟩

/-- C3 counterexample: deleting the absent node "n1" returns the registry's
not-found outcome as an error — the delete handler logs it as a failure
and it does not count as success, refuting the claim that a "not found"
outcome is treated as benign. -/
theorem C3_counterexample_notFound_reported_as_error :
    (DeleteNode (bareNode "n1") emptyStore []).res = .error (.store .notFound) ∧
    (DeleteNode (bareNode "n1") emptyStore []).res ≠ .ok () ∧
    (handleNodeDelMap emptyStore [("n1", bareNode "n1")] []).logs =
      [.error (.store .notFound)] := by
  refine ⟨by decide, by decide, by decide⟩

/-- C3 (amended): the delete handler surfaces every registry delete
failure — "not found" included, with no special-casing — as an error that
is logged; it performs exactly one delete call per resolved entry (no
delete is ever retried), and a failing entry never aborts the remaining
entries (every entry yields exactly one logged outcome). -/
theorem C3_amended_delete_best_effort :
    (∀ (node : Node) (s : Store) (iv : List Intervene) (e : KErr),
        storeDelete s node.name = .error e →
        (DeleteNode node s iv).res = .error (.store e) ∧ (DeleteNode node s iv).s = s) ∧
    (∀ (node : Node) (s : Store) (iv : List Intervene), (DeleteNode node s iv).tr.length = 1) ∧
    (∀ (dm : List (String × Node)) (s : Store) (iv : List Intervene),
        (handleNodeDelMap s dm iv).logs.length = dm.length) := by
  refine ⟨?_, deleteNode_tr_len, fun dm s iv => handleNodeDelMap_logs_len dm s iv⟩
  intro node s iv e hd
  rw [deleteNode_error _ hd]
  exact ⟨rfl, rfl⟩

/-- C3 witness: a delete of the absent node "n1" hits the not-found case
and is reported as a store error with the registry untouched. -/
theorem C3_amended_witness :
    storeDelete emptyStore (bareNode "n1").name = .error .notFound ∧
    (DeleteNode (bareNode "n1") emptyStore []).res = .error (.store .notFound) ∧
    (DeleteNode (bareNode "n1") emptyStore []).s = emptyStore :=
  ⟨by decide,
   (C3_amended_delete_best_effort.1 (bareNode "n1") emptyStore [] .notFound (by decide)).1,
   (C3_amended_delete_best_effort.1 (bareNode "n1") emptyStore [] .notFound (by decide)).2⟩

/-- C4: `handleNodeReport` fails exactly on decode failure: a malformed
envelope returns the decode error having made no registry call, while
every successfully decoded envelope returns success; and each entry of the
update map and the delete map yields exactly one logged outcome, so an
entry failure (identity, version, or store error) is recorded and skipped
without aborting the processing of the remaining entries. -/
theorem C4_report_error_iff_decode_failure :
    (∀ (raw : String) (s : Store) (iv : List Intervene),
        handleNodeReport (.malformed raw) s iv = ⟨.error (.decode raw), s, [], iv, []⟩) ∧
    (∀ (nrs : NodeResourceStatus) (s : Store) (iv : List Intervene),
        (handleNodeReport (.wellFormed nrs) s iv).res = .ok ()) ∧
    (∀ (um : List (String × Node)) (s : Store) (iv : List Intervene),
        (handleNodeUpdateMap s um iv).logs.length = um.length) ∧
    (∀ (dm : List (String × Node)) (s : Store) (iv : List Intervene),
        (handleNodeDelMap s dm iv).logs.length = dm.length) :=
  ⟨handleNodeReport_malformed, handleNodeReport_wf_res,
   fun um s iv => handleNodeUpdateMap_logs_len um s iv,
   fun dm s iv => handleNodeDelMap_logs_len dm s iv⟩

/-- C8: an envelope that decodes to a report carrying only the
full-snapshot field (no update map, no delete map) performs zero registry
calls, leaves the registry untouched, and succeeds. -/
theorem C8_full_snapshot_only_report_is_a_noop (l : List Node) (s : Store) (iv : List Intervene) :
    handleNodeReport (.wellFormed ⟨some l, none, none⟩) s iv = ⟨.ok (), s, [], iv, []⟩ := rfl

/-- C6: when the registry has no entry for the node's name,
`CreateOrUpdateNode` creates the node as given — for every label set, so
no version check is applied — stores it verbatim up to the
registry-assigned concurrency token, and succeeds; the trace shows exactly
the read and the create call. -/
theorem C6_absent_node_created_as_given (node : Node) (s : Store) (iv : List Intervene)
    (hg : GetNode s node = .error .notFound) :
    (CreateOrUpdateNode node s iv).res = .ok () ∧
    (CreateOrUpdateNode node s iv).s =
      ⟨(node.name, { node with resourceVersion := s.nextRV }) :: s.nodes, s.nextRV + 1⟩ ∧
    (CreateOrUpdateNode node s iv).tr =
      [.getC node.name (.error .notFound),
       .createC node (.ok { node with resourceVersion := s.nextRV })] := by
  rw [createOrUpdate_absent _ hg]
  exact ⟨rfl, rfl, rfl⟩

/-- C6 witness: create "n1" at edge-version 2, delete it, then submit an
update for "n1" at edge-version 1 — the registry entry is absent, so the
submission succeeds as a fresh creation although 1 < 2. -/
theorem C6_witness :
    GetNode (DeleteNode (testNode "n1" "2")
        (CreateOrUpdateNode (testNode "n1" "2") emptyStore []).s []).s (testNode "n1" "1") =
      .error .notFound ∧
    (CreateOrUpdateNode (testNode "n1" "1")
        (DeleteNode (testNode "n1" "2")
          (CreateOrUpdateNode (testNode "n1" "2") emptyStore []).s []).s []).res = .ok () :=
  ⟨by decide,
   (C6_absent_node_created_as_given (testNode "n1" "1")
      (DeleteNode (testNode "n1" "2")
        (CreateOrUpdateNode (testNode "n1" "2") emptyStore []).s []).s [] (by decide)).1⟩

/-- C7: duplicate submissions are stateless: if `CreateOrUpdateNode`
succeeds for a node, submitting the very same node again is rejected by
the version gate (with an empty, unparseable, or stale version error —
stale when the version parses, since it now equals the stored one) and
leaves the registry exactly as it was after the first submission. -/
theorem C7_duplicate_submission_rejected_state_unchanged (node : Node) (s : Store)
    (h : (CreateOrUpdateNode node s []).res = .ok ()) :
    (∃ e, (CreateOrUpdateNode node (CreateOrUpdateNode node s []).s []).res = .error e ∧
      isVersionGateErr e = true) ∧
    (CreateOrUpdateNode node (CreateOrUpdateNode node s []).s []).s =
      (CreateOrUpdateNode node s []).s := by
  have hst := createOrUpdate_nil_ok_stored node s h
  obtain ⟨e, hc, hgate⟩ :=
    checkNodeEdgeVersion_same_label node { node with resourceVersion := s.nextRV } rfl
  rw [createOrUpdate_present _ hst, updateNode_check_error _ hst hc]
  exact ⟨⟨e, rfl, hgate⟩, rfl⟩

/-- C7 witness: submitting node "a" at edge-version 1 to the empty
registry succeeds; submitting it again is rejected with a version-gate
error and the registry is unchanged. -/
theorem C7_witness :
    (CreateOrUpdateNode (testNode "a" "1") emptyStore []).res = .ok () ∧
    (∃ e, (CreateOrUpdateNode (testNode "a" "1")
        (CreateOrUpdateNode (testNode "a" "1") emptyStore []).s []).res = .error e ∧
      isVersionGateErr e = true) ∧
    (CreateOrUpdateNode (testNode "a" "1")
        (CreateOrUpdateNode (testNode "a" "1") emptyStore []).s []).s =
      (CreateOrUpdateNode (testNode "a" "1") emptyStore []).s :=
  ⟨by decide,
   (C7_duplicate_submission_rejected_state_unchanged (testNode "a" "1") emptyStore (by decide)).1,
   (C7_duplicate_submission_rejected_state_unchanged (testNode "a" "1") emptyStore (by decide)).2⟩

/-- C9 counterexample: for a report with one update entry ("a") and one
delete entry ("b") against the empty registry, the dispatcher's registry
trace begins with the upsert engine's calls and ends with the delete
call — deletes are not processed before updates. -/
theorem C9_counterexample_delete_runs_last :
    (handleNodeReport
        (.wellFormed ⟨none, some [("a", testNode "a" "1")], some [("b", bareNode "b")]⟩)
        emptyStore []).tr =
      [.getC "a" (.error .notFound),
       .createC (testNode "a" "1") (.ok ⟨"a", [(EdgeVersionLabel, "1")], 0⟩),
       .deleteC "b" (.error .notFound)] ∧
    (handleNodeReport
        (.wellFormed ⟨none, some [("a", testNode "a" "1")], some [("b", bareNode "b")]⟩)
        emptyStore []).tr.head? = some (.getC "a" (.error .notFound)) ∧
    (handleNodeReport
        (.wellFormed ⟨none, some [("a", testNode "a" "1")], some [("b", bareNode "b")]⟩)
        emptyStore []).tr.getLast? = some (.deleteC "b" (.error .notFound)) := by
  refine ⟨by decide, by decide, by decide⟩

/-- C9 (amended): within one report, after decoding, the dispatcher first
runs the upsert engine on every entry of the update set and then the
delete handler on every entry of the delete set: the registry trace of
every well-formed report splits into a prefix containing no delete call
followed by a suffix of delete calls only. -/
theorem C9_amended_updates_processed_before_deletes
    (nrs : NodeResourceStatus) (s : Store) (iv : List Intervene) :
    ∃ utr dtr, (handleNodeReport (.wellFormed nrs) s iv).tr = utr ++ dtr ∧
      utr.all (fun c => !isDeleteCall c) = true ∧ dtr.all isDeleteCall = true := by
  rcases nrs with ⟨fl, um, dm⟩
  rcases um with _ | um <;> rcases dm with _ | dm
  · exact ⟨[], [], rfl, rfl, rfl⟩
  · exact ⟨[], (handleNodeDelMap s dm iv).tr, rfl, rfl, handleNodeDelMap_all_delete dm s iv⟩
  · exact ⟨(handleNodeUpdateMap s um iv).tr, [], rfl, handleNodeUpdateMap_no_delete um s iv, rfl⟩
  · exact ⟨(handleNodeUpdateMap s um iv).tr,
      (handleNodeDelMap (handleNodeUpdateMap s um iv).s dm (handleNodeUpdateMap s um iv).iv).tr,
      rfl, handleNodeUpdateMap_no_delete um s iv, handleNodeDelMap_all_delete dm _ _⟩

/-- C10: first creation never consults the edge-version label — a node
absent from the registry is created even when its label set lacks the
label entirely; once such a label-less node is stored, every subsequent
`CreateOrUpdateNode` for that name fails the gate with the empty-version
error regardless of the incoming edge-version and mutates nothing; the
node can still be deleted. -/
theorem C10_labelless_creation_blocks_all_updates :
    (∀ (node : Node) (s : Store) (iv : List Intervene),
        GetNode s node = .error .notFound →
        getLabel node.labels EdgeVersionLabel = "" →
        (CreateOrUpdateNode node s iv).res = .ok ()) ∧
    (∀ (node st : Node) (s : Store) (iv : List Intervene),
        GetNode s node = .ok st →
        getLabel st.labels EdgeVersionLabel = "" →
        (CreateOrUpdateNode node s iv).res = .error .emptyVersion ∧
        (CreateOrUpdateNode node s iv).s = s) ∧
    (∀ (node st : Node) (s : Store) (iv : List Intervene),
        GetNode s node = .ok st →
        (DeleteNode node s iv).res = .ok ()) := by
  refine ⟨?_, ?_, ?_⟩
  · intro node s iv hg hlab
    rw [createOrUpdate_absent _ hg]
  · intro node st s iv hg hlab
    have hc : checkNodeEdgeVersion node st = .error .emptyVersion := by
      unfold checkNodeEdgeVersion
      rw [if_pos (Or.inr (by rw [hlab]; rfl))]
    rw [createOrUpdate_present _ hg, updateNode_check_error _ hg hc]
    exact ⟨rfl, rfl⟩
  · intro node st s iv hg
    have hg' : storeGet s node.name = .ok st := hg
    have hd : storeDelete s node.name =
        .ok ⟨s.nodes.filter (fun p => p.1 != node.name), s.nextRV⟩ := by
      unfold storeDelete
      rw [storeGet_ok_find hg']
    rw [deleteNode_ok _ hd]

/-- C10 witness: the label-less node "n1" is created into the empty
registry; a later update for "n1" at edge-version 5 fails with the
empty-version error, while a delete succeeds. -/
theorem C10_witness :
    (CreateOrUpdateNode (bareNode "n1") emptyStore []).res = .ok () ∧
    (CreateOrUpdateNode (testNode "n1" "5")
        (CreateOrUpdateNode (bareNode "n1") emptyStore []).s []).res = .error .emptyVersion ∧
    (DeleteNode (testNode "n1" "5")
        (CreateOrUpdateNode (bareNode "n1") emptyStore []).s []).res = .ok () :=
  ⟨C10_labelless_creation_blocks_all_updates.1 (bareNode "n1") emptyStore [] (by decide) (by decide),
   (C10_labelless_creation_blocks_all_updates.2.1 (testNode "n1" "5") ⟨"n1", [], 0⟩
      (CreateOrUpdateNode (bareNode "n1") emptyStore []).s [] (by decide) (by decide)).1,
   C10_labelless_creation_blocks_all_updates.2.2 (testNode "n1" "5") ⟨"n1", [], 0⟩
      (CreateOrUpdateNode (bareNode "n1") emptyStore []).s [] (by decide)⟩

/-- C1: per-node edge-version monotonicity of the upsert engine. When the
node is present in the registry, a submission whose parsed edge-version is
less than or equal to the stored parsed edge-version is rejected with the
stale-version error and mutates nothing — under any concurrent-writer
schedule, since the gate rejects before any write. In a sequential commit
(the setting in which commit order is the submission order), a successful
submission always stores the submitted node with a strictly larger parsed
edge-version, and a rejected one leaves the registry untouched — so the
stored edge-version never decreases across accepted updates. -/
theorem C1_committed_edge_versions_strictly_increase :
    (∀ (node st : Node) (s : Store) (iv : List Intervene) (vn vs : Int),
        GetNode s node = .ok st →
        goAtoi (getLabel node.labels EdgeVersionLabel) = .ok vn →
        goAtoi (getLabel st.labels EdgeVersionLabel) = .ok vs →
        vn ≤ vs →
        (CreateOrUpdateNode node s iv).res =
          .error (.staleVersion (getLabel node.labels EdgeVersionLabel)
                                (getLabel st.labels EdgeVersionLabel)) ∧
        (CreateOrUpdateNode node s iv).s = s) ∧
    (∀ (node st : Node) (s : Store) (vs : Int),
        GetNode s node = .ok st →
        goAtoi (getLabel st.labels EdgeVersionLabel) = .ok vs →
        ((CreateOrUpdateNode node s []).res = .ok () →
          ∃ vn : Int, goAtoi (getLabel node.labels EdgeVersionLabel) = .ok vn ∧ vs < vn ∧
            GetNode (CreateOrUpdateNode node s []).s node =
              .ok { node with resourceVersion := s.nextRV }) ∧
        (∀ e, (CreateOrUpdateNode node s []).res = .error e →
          (CreateOrUpdateNode node s []).s = s)) := by
  constructor
  · intro node st s iv vn vs hg hn hs hle
    have hc : checkNodeEdgeVersion node st =
        .error (.staleVersion (getLabel node.labels EdgeVersionLabel)
                              (getLabel st.labels EdgeVersionLabel)) := by
      unfold checkNodeEdgeVersion
      rw [if_neg (by simp [goAtoi_ok_ne_empty hn, goAtoi_ok_ne_empty hs])]
      simp only [hn, hs]
      rw [if_pos hle]
    rw [createOrUpdate_present _ hg, updateNode_check_error _ hg hc]
    exact ⟨rfl, rfl⟩
  · intro node st s vs hg hs
    constructor
    · intro hok
      have hstored := createOrUpdate_nil_ok_stored node s hok
      rw [createOrUpdate_present _ hg] at hok
      rcases hc : checkNodeEdgeVersion node st with e | u
      · rw [updateNode_check_error _ hg hc] at hok
        simp at hok
      · cases u
        obtain ⟨vn, vs', hn', hs', hlt⟩ := (checkNodeEdgeVersion_ok_iff node st).mp hc
        rw [hs] at hs'
        have hvs : vs = vs' := (Except.ok.injEq _ _).mp hs'
        exact ⟨vn, hn', by omega, hstored⟩
    · intro e herr
      rw [createOrUpdate_present _ hg] at herr ⊢
      rcases hc : checkNodeEdgeVersion node st with e' | u
      · rw [updateNode_check_error _ hg hc] at herr ⊢
      · cases u
        rw [updateNode_nil_ok hg hc] at herr
        simp at herr

/-- C1 witness: with "a" stored at edge-version 2, submitting version 1 is
rejected as stale with the registry unchanged, and submitting version 3
succeeds committing the strictly larger version. -/
theorem C1_witness :
    ((CreateOrUpdateNode (testNode "a" "1")
        (CreateOrUpdateNode (testNode "a" "2") emptyStore []).s []).res =
      .error (.staleVersion "1" "2") ∧
     (CreateOrUpdateNode (testNode "a" "1")
        (CreateOrUpdateNode (testNode "a" "2") emptyStore []).s []).s =
      (CreateOrUpdateNode (testNode "a" "2") emptyStore []).s) ∧
    (∃ vn : Int, goAtoi (getLabel (testNode "a" "3").labels EdgeVersionLabel) = .ok vn ∧
      (2 : Int) < vn ∧
      GetNode (CreateOrUpdateNode (testNode "a" "3")
          (CreateOrUpdateNode (testNode "a" "2") emptyStore []).s []).s (testNode "a" "3") =
        .ok ⟨"a", [(EdgeVersionLabel, "3")], 1⟩) :=
  ⟨C1_committed_edge_versions_strictly_increase.1 (testNode "a" "1")
      ⟨"a", [(EdgeVersionLabel, "2")], 0⟩
      (CreateOrUpdateNode (testNode "a" "2") emptyStore []).s [] 1 2
      (by decide) (by decide) (by decide) (by decide),
   (C1_committed_edge_versions_strictly_increase.2 (testNode "a" "3")
      ⟨"a", [(EdgeVersionLabel, "2")], 0⟩
      (CreateOrUpdateNode (testNode "a" "2") emptyStore []).s 2
      (by decide) (by decide)).1 (by decide)⟩

/-- C5: every write attempt of the upsert engine carries the concurrency
token obtained from the read performed immediately before it
(`updatesUseFreshRead`); a write rejected with a conflict is immediately
followed by a fresh read restarting the whole cycle
(`conflictRetriedWithFreshGet`), and the retry never runs out within the
finitely many concurrent-writer events (the fuel error is unreachable);
a write failure other than a conflict ends the cycle immediately
(`nonConflictWriteErrorIsLast`) and is returned to the caller. -/
theorem C5_write_uses_fresh_read_conflicts_retried (node : Node) (s : Store) (iv : List Intervene) :
    updatesUseFreshRead (UpdateNode node s iv).tr = true ∧
    conflictRetriedWithFreshGet (UpdateNode node s iv).tr = true ∧
    nonConflictWriteErrorIsLast (UpdateNode node s iv).tr = true ∧
    (∀ n e, RegCall.updateC n (.error e) ∈ (UpdateNode node s iv).tr → e ≠ .conflict →
        (UpdateNode node s iv).res = .error (.store e)) ∧
    (UpdateNode node s iv).res ≠ .error .fuel := by
  rw [updateNode_def]
  exact updateNodeFuel_master (iv.length + 1) node s iv (Nat.lt_succ_self _)

/-- C5 witness: with "a" stored at edge-version 1, an update to version 3
whose write is preceded by a concurrent delete of "a" fails the write with
the non-conflict not-found error, which is returned to the caller
unretried. -/
theorem C5_witness :
    RegCall.updateC ⟨"a", [(EdgeVersionLabel, "3")], 0⟩ (.error .notFound) ∈
      (UpdateNode (testNode "a" "3")
        (CreateOrUpdateNode (testNode "a" "1") emptyStore []).s [.del "a"]).tr ∧
    (UpdateNode (testNode "a" "3")
        (CreateOrUpdateNode (testNode "a" "1") emptyStore []).s [.del "a"]).res =
      .error (.store .notFound) :=
  ⟨by decide,
   (C5_write_uses_fresh_read_conflicts_retried (testNode "a" "3")
      (CreateOrUpdateNode (testNode "a" "1") emptyStore []).s [.del "a"]).2.2.2.1
     ⟨"a", [(EdgeVersionLabel, "3")], 0⟩ .notFound (by decide) (by decide)⟩
